import Mathlib

/-!
A shallow embedding of `tools/validate_chaos_pr.py`, the pull-request
gatekeeper for the chaos-board page.  Documents are modelled as `List Char`
(Python `str`), fallible operations return `Option`, and the external
collaborators (git, the filesystem, the stdlib HTML tokenizer) are injected
as explicit data / function parameters, mirroring the spec's capability
seams.  Each Python helper is translated function-by-function; recursion
that jumps over consumed input carries an explicit fuel argument equal to
the input length (every step consumes at least one character, so the fuel
is never exhausted on the initial call).
-/

namespace ChaosPR

/-- Python-style whitespace test: the characters stripped by `str.strip()`
and matched by `\s` for ASCII input. -/
def isPyWs (c : Char) : Bool :=
  c == ' ' || c == '\t' || c == '\n' || c == '\r' || c == '\x0b' || c == '\x0c'

/-- Python `str.lower()` (ASCII fragment, which is all the validator needs). -/
def pyLower (l : List Char) : List Char := l.map Char.toLower

/-- Python `str.lstrip()`. -/
def pyLStrip (l : List Char) : List Char := l.dropWhile isPyWs

/-- Python `str.strip()`. -/
def pyStrip (l : List Char) : List Char :=
  ((l.dropWhile isPyWs).reverse.dropWhile isPyWs).reverse

/-- Python `haystack.find(needle)`: index of the first occurrence of
`pat` in `hay`, as an `Option` instead of `-1`. -/
def findSub : List Char → List Char → Option Nat
  | hay, pat =>
    if pat.isPrefixOf hay then some 0
    else
      match hay with
      | [] => none
      | _ :: t => (findSub t pat).map (· + 1)

/-- The literal `CHAOS_START` marker from the source. -/
def CHAOS_START : List Char := "<!-- CHAOS_START -->".data

/-- The literal `CHAOS_END` marker from the source. -/
def CHAOS_END : List Char := "<!-- CHAOS_END -->".data

/-- Source `split_chaos_region`:
`start = html.find(CHAOS_START); end = html.find(CHAOS_END);`
raise (here: `none`) when either is missing or `end <= start`; otherwise
return `(html[: start+len(CHAOS_START)], html[start+len(CHAOS_START) : end],
html[end :])`. -/
def split_chaos_region (html : List Char) :
    Option (List Char × List Char × List Char) :=
  match findSub html CHAOS_START, findSub html CHAOS_END with
  | some s, some e =>
    if e ≤ s then none
    else
      some (html.take (s + CHAOS_START.length),
            (html.drop (s + CHAOS_START.length)).take (e - (s + CHAOS_START.length)),
            html.drop e)
  | _, _ => none

/-- Witness document for the split theorems. -/
def splitWitnessDoc : List Char :=
  "AA<!-- CHAOS_START -->mid<!-- CHAOS_END -->ZZ".data

/-! ## HTML safety scanner (`ChaosHTMLSafetyParser.handle_starttag`)

The stdlib `HTMLParser` is an external tokenizer: it delivers start-tag
events `(tag, attrs)` where each attribute value is `None` for bare
attributes.  `handle_starttag` below is the repository's reaction to one
such event; the whole-region scan joins the reactions of all events in
order (the parser state is only the growing error list). -/

/-- Lookup in an association list (a Python `dict` after
`attrMapBuild` guarantees unique keys). -/
def attrGet : List (List Char × List Char) → List Char → Option (List Char)
  | [], _ => none
  | (k, v) :: rest, key => if k = key then some v else attrGet rest key

/-- Remove the (unique) entry with the given key. -/
def eraseKey (key : List Char) :
    List (List Char × List Char) → List (List Char × List Char)
  | [] => []
  | (k, v) :: rest => if k = key then rest else (k, v) :: eraseKey key rest

/-- Build a Python `dict` from a pair list: keys appear in order of first
occurrence, each key's value is its last assignment. -/
def attrMapBuild :
    List (List Char × List Char) → List (List Char × List Char)
  | [] => []
  | (k, v) :: rest =>
    let m := attrMapBuild rest
    match attrGet m k with
    | some v2 => (k, v2) :: eraseKey k m
    | none => (k, v) :: m

/-- Source `attr_map = {k.lower(): (v or "") for k, v in attrs}`. -/
def buildAttrMap (attrs : List (List Char × Option (List Char))) :
    List (List Char × List Char) :=
  attrMapBuild (attrs.map (fun p => (pyLower p.1, p.2.getD [])))

/-- Python `str.split()` with no separator: split on whitespace runs,
dropping empty pieces.  The fuel is the input length; each step consumes
at least one character. -/
def pySplitWsF : Nat → List Char → List (List Char)
  | _, [] => []
  | 0, l => [l]
  | fuel + 1, c :: rest =>
    if isPyWs c then pySplitWsF fuel rest
    else
      (c :: rest.takeWhile (fun d => !isPyWs d)) ::
        pySplitWsF fuel (rest.dropWhile (fun d => !isPyWs d))

/-- Python `str.split()` with no separator. -/
def pySplitWs (l : List Char) : List (List Char) := pySplitWsF l.length l

/-- Message `f"Inline event handler attribute not allowed: {tag}[{k}]"`. -/
def inlineMsg (tag k : List Char) : List Char :=
  "Inline event handler attribute not allowed: ".data ++ tag ++
    "[".data ++ k ++ "]".data

/-- Message `"Links must not use javascript: URLs"`. -/
def jsMsg : List Char := "Links must not use javascript: URLs".data

/-- Message `f"Links must be http(s) or fragment only: href={href}"`. -/
def linkSchemeMsg (href : List Char) : List Char :=
  "Links must be http(s) or fragment only: href=".data ++ href

/-- The `target="_blank"` violation message. -/
def targetMsg : List Char :=
  "External links must include target=\"_blank\"".data

/-- The `rel="nofollow noopener noreferrer"` violation message. -/
def relMsg : List Char :=
  "External links must include rel=\"nofollow noopener noreferrer\"".data

/-- Message `"Images must use https:// sources"`. -/
def imgSrcMsg : List Char := "Images must use https:// sources".data

/-- Message `"Images must include non-empty alt attribute"`. -/
def imgAltMsg : List Char := "Images must include non-empty alt attribute".data

/-- The `for k in list(attr_map.keys()): if k.startswith("on")` loop. -/
def onHandlerErrors (tag : List Char)
    (attr_map : List (List Char × List Char)) : List (List Char) :=
  ((attr_map.map Prod.fst).filter (fun k => "on".data.isPrefixOf k)).map
    (fun k => inlineMsg tag k)

/-- The `<a>`-tag checks of `handle_starttag`, verbatim from the source:
the `javascript:` check and the scheme check are two independent `if`s,
and the external-link (`target`/`rel`) checks fire only for
`http(s)`-prefixed hrefs. -/
def aErrors (attr_map : List (List Char × List Char)) : List (List Char) :=
  let href := (attrGet attr_map ("href".data)).getD []
  let href_l := pyLower (pyStrip href)
  let e1 :=
    if href = [] then []
    else
      (if "javascript:".data.isPrefixOf href_l then [jsMsg] else []) ++
      (if !("http://".data.isPrefixOf href_l ||
            "https://".data.isPrefixOf href_l ||
            "#".data.isPrefixOf href_l) then [linkSchemeMsg href] else [])
  let e2 :=
    if "http://".data.isPrefixOf href_l || "https://".data.isPrefixOf href_l then
      (if attrGet attr_map ("target".data) = some ("_blank".data) then []
       else [targetMsg]) ++
      (let rel := pyLower (List.intercalate (" ".data)
          (pySplitWs ((attrGet attr_map ("rel".data)).getD [])))
       let present := pySplitWs rel
       if "nofollow".data ∈ present ∧ "noopener".data ∈ present ∧
           "noreferrer".data ∈ present then []
       else [relMsg])
    else []
  e1 ++ e2

/-- The `<img>`-tag checks of `handle_starttag`.  (`attr_map.get("alt")`
is falsy exactly when `alt` is absent or maps to the empty string, i.e.
when the `getD []` lookup is empty.) -/
def imgErrors (attr_map : List (List Char × List Char)) : List (List Char) :=
  let src := (attrGet attr_map ("src".data)).getD []
  (if src = [] then []
   else if "https://".data.isPrefixOf (pyLower (pyStrip src)) then []
   else [imgSrcMsg]) ++
  (if (attrGet attr_map ("alt".data)).getD [] = [] then [imgAltMsg] else [])

/-- Source `ChaosHTMLSafetyParser.handle_starttag`: the errors one start-tag
event appends, in order. -/
def handle_starttag (tag : List Char)
    (attrs : List (List Char × Option (List Char))) : List (List Char) :=
  onHandlerErrors tag (buildAttrMap attrs) ++
  (if pyLower tag = "a".data then aErrors (buildAttrMap attrs) else []) ++
  (if pyLower tag = "img".data then imgErrors (buildAttrMap attrs) else [])

/-! ## CSS scope checker (`validate_css_scoping`)

The Python function is regex-driven; each regex is translated to the
character scan it performs.  Functions that resume scanning after a
consumed match carry fuel equal to the input length (each step consumes at
least one character, so the fuel never runs out). -/

/-- Opening brace, written via its code point. -/
def lbrace : Char := Char.ofNat 123

/-- Closing brace, written via its code point. -/
def rbrace : Char := Char.ofNat 125

/-- Single quote, written via its code point. -/
def squote : Char := Char.ofNat 39

/-- Double quote, written via its code point. -/
def dquote : Char := Char.ofNat 34

/-- Scan for the first `*/`; `some rest` drops through it,
`none` when the comment never closes. -/
def dropCommentClose : List Char → Option (List Char)
  | [] => none
  | '*' :: '/' :: rest => some rest
  | _ :: rest => dropCommentClose rest

/-- Regex `re.sub(r"/\*.*?\*/", "", css, flags=re.DOTALL)`: delete each block
comment from `/*` to the nearest following `*/`; an unterminated `/*`
matches nothing and is kept (no match can start at or after it because a
match needs a `*/`). -/
def stripCommentsF : Nat → List Char → List Char
  | 0, l => l
  | _ + 1, [] => []
  | fuel + 1, '/' :: '*' :: rest =>
    (match dropCommentClose rest with
     | some rest2 => stripCommentsF fuel rest2
     | none => '/' :: '*' :: rest)
  | fuel + 1, c :: rest => c :: stripCommentsF fuel rest

/-- Comment deletion at full fuel. -/
def stripComments (l : List Char) : List Char := stripCommentsF l.length l

/-- Scan for the closing quote `q`, skipping backslash-escaped pairs;
`some rest` is the text after the closing quote. -/
def scanStringClose (q : Char) : List Char → Option (List Char)
  | [] => none
  | '\\' :: _ :: rest => scanStringClose q rest
  | c :: rest => if c = q then some rest else scanStringClose q rest

/-- One pass of `re.sub(r"q([^q\\]|\\.)*q", "qq", css)` for quote
character `q`: each closed string literal becomes an empty one; a quote
with no closing quote is left as-is together with everything after it (no
later match can exist, since every later `q` is either this scan's failed
closer or an escaped character). -/
def stripQuotedF (q : Char) : Nat → List Char → List Char
  | 0, l => l
  | _ + 1, [] => []
  | fuel + 1, c :: rest =>
    if c = q then
      match scanStringClose q rest with
      | some rest2 => q :: q :: stripQuotedF q fuel rest2
      | none => c :: rest
    else c :: stripQuotedF q fuel rest

/-- String-literal emptying at full fuel. -/
def stripQuoted (q : Char) (l : List Char) : List Char :=
  stripQuotedF q l.length l

/-- Python `str.split(sep)` for a one-character separator: `n` separators
yield `n + 1` pieces, empty pieces preserved. -/
def splitOnChar (sep : Char) : List Char → List (List Char)
  | [] => [[]]
  | c :: rest =>
    if c = sep then [] :: splitOnChar sep rest
    else
      match splitOnChar sep rest with
      | [] => [[c]]
      | p :: ps => (c :: p) :: ps

/-- Regex `re.split(r"\s+|>\s*|\+\s*|~\s*", sel)`: cut at each whitespace run
and at each `>`/`+`/`~` with its trailing whitespace; adjacent matches
produce empty pieces, as in Python. -/
def reSplitCombF : Nat → List Char → List Char → List (List Char)
  | _, acc, [] => [acc.reverse]
  | 0, acc, l => [acc.reverse ++ l]
  | fuel + 1, acc, c :: rest =>
    if isPyWs c then acc.reverse :: reSplitCombF fuel [] (rest.dropWhile isPyWs)
    else if c == '>' || c == '+' || c == '~' then
      acc.reverse :: reSplitCombF fuel [] (rest.dropWhile isPyWs)
    else reSplitCombF fuel (c :: acc) rest

/-- Combinator split at full fuel. -/
def reSplitComb (l : List Char) : List (List Char) :=
  reSplitCombF l.length [] l

/-- ASCII letter, as in the regex `[a-zA-Z]`. -/
def isAsciiLetter (c : Char) : Bool :=
  decide ('a' ≤ c ∧ c ≤ 'z') || decide ('A' ≤ c ∧ c ≤ 'Z')

/-- Identifier tail, as in the regex `[a-zA-Z0-9-]`. -/
def isIdentTail (c : Char) : Bool :=
  isAsciiLetter c || decide ('0' ≤ c ∧ c ≤ '9') || c == '-'

/-- Regex `re.match(r"^[a-zA-Z][a-zA-Z0-9-]*", t)`: the leading identifier, if
the token starts with a letter. -/
def identMatch : List Char → Option (List Char)
  | [] => none
  | c :: rest =>
    if isAsciiLetter c then some (c :: rest.takeWhile isIdentTail) else none

/-- Test `t.startswith((".", "#", ":", "["))`. -/
def startsWithSpecial : List Char → Bool
  | [] => false
  | c :: _ => c == '.' || c == '#' || c == ':' || c == '['

/-- Message `f"All selectors must start with .chaos-region: {sel}"`. -/
def allSelMsg (sel : List Char) : List Char :=
  "All selectors must start with .chaos-region: ".data ++ sel

/-- Message `f"Bare element selector not allowed in chaos.css: {sel}"`. -/
def bareSelMsg (sel : List Char) : List Char :=
  "Bare element selector not allowed in chaos.css: ".data ++ sel

/-- The body of the token loop: does this (stripped) token trigger the
bare-element violation?  The loop `break`s at the first such token, so a
selector contributes at most one bare-element message — `List.any` below
reproduces that. -/
def tokenIsBare (t : List Char) : Bool :=
  if t = "*".data ∨ t = "html".data ∨ t = "body".data then true
  else
    match identMatch t with
    | some ident =>
      if startsWithSpecial t then false
      else decide (ident ≠ "chaos-region".data)
    | none => false

/-- The per-selector checks: the `.chaos-region` prefix requirement
(`continue` on failure), then the token loop. -/
def selectorErrors (sel : List Char) : List (List Char) :=
  if ".chaos-region".data.isPrefixOf sel then
    (if (reSplitComb sel).any (fun t => tokenIsBare (pyStrip t)) then
      [bareSelMsg sel]
     else [])
  else [allSelMsg sel]

/-- One iteration of `for block in css.split("{")[:-1]`: isolate the
selector list (text after the block's last `}`), skip empty lists and
at-rules, split on commas and check each selector. -/
def blockErrors (block : List Char) : List (List Char) :=
  let selector_part := pyStrip ((splitOnChar rbrace block).getLastD [])
  if selector_part = [] then []
  else if "@".data.isPrefixOf (pyLStrip selector_part) then []
  else
    (((splitOnChar ',' selector_part).map pyStrip).filter
      (fun s => !s.isEmpty)).flatMap selectorErrors

/-- Source `validate_css_scoping`: strip comments, empty the
single- then double-quoted string literals, then check every rule block. -/
def validate_css_scoping (css : List Char) : List (List Char) :=
  ((splitOnChar lbrace
      (stripQuoted dquote (stripQuoted squote (stripComments css)))).dropLast).flatMap
    blockErrors

/-- The claim's example CSS, `* { margin:0; }`. -/
def starRuleCss : List Char := "* \x7b margin:0; \x7d".data

/-- The claim's example CSS with selector-like text inside a string
literal, `.chaos-region .x { content: "h1 { color }"; }`. -/
def stringLiteralCss : List Char :=
  ".chaos-region .x \x7b content: \"h1 \x7b color \x7d\"; \x7d".data

/-! ## Change-set validator (`validate`)

The external collaborators are injected: the changed-file set and the two
HTML revisions plus the CSS worktree content live in `Env` (the spec's
`ChangedFiles` / `FileContent` capabilities), and the stdlib HTML
tokenizer is a function parameter `Tokenizer` delivering start-tag events
in document order. -/

/-- Path `"chaos-board/index.html"`. -/
def htmlTarget : List Char := "chaos-board/index.html".data

/-- Path `"chaos-board/assets/chaos.css"`. -/
def cssTarget : List Char := "chaos-board/assets/chaos.css".data

/-- Source `ALLOWED_CHANGED_FILES`. -/
def ALLOWED_CHANGED_FILES : List (List Char) := [htmlTarget, cssTarget]

/-- Message `"Only these files may change: " + ", ".join(sorted(ALLOWED_CHANGED_FILES))`;
the sorted order puts `assets/chaos.css` before `index.html`. -/
def allowMsg : List Char :=
  "Only these files may change: ".data ++
    List.intercalate (", ".data) [cssTarget, htmlTarget]

/-- Message `"Illegal changed files: " + ", ".join(illegal)` where `illegal` keeps
the change-set order. -/
def illegalMsg (files : List (List Char)) : List Char :=
  "Illegal changed files: ".data ++
    List.intercalate (", ".data)
      (files.filter (fun f => decide (f ∉ ALLOWED_CHANGED_FILES)))

/-- The outside-marked-region violation message. -/
def regionMsg : List Char :=
  "index.html may only change content between CHAOS_START/CHAOS_END markers".data

/-- Message `str(ValueError(...))` from `split_chaos_region`. -/
def malformedMsg : List Char := "Missing or misordered chaos markers".data

/-- The injected inputs of one validation run. -/
structure Env where
  files : List (List Char)
  base_html : List Char
  head_html : List Char
  css : List Char

/-- The external HTML tokenizer: start-tag events `(tag, attrs)` of a
region, in document order (the only events the parser class handles). -/
def Tokenizer : Type :=
  List Char → List (List Char × List (List Char × Option (List Char)))

/-- Source `parser.feed(head_region); parser.errors`: the concatenation, in event
order, of the errors each start tag appends. -/
def scanRegion (tok : Tokenizer) (region : List Char) : List (List Char) :=
  ((tok region).map (fun ev => handle_starttag ev.1 ev.2)).flatten

/-- The allow-list step of `validate`: both messages, or nothing. -/
def allowlistErrors (files : List (List Char)) : List (List Char) :=
  if files.filter (fun f => decide (f ∉ ALLOWED_CHANGED_FILES)) = [] then []
  else [allowMsg, illegalMsg files]

/-- The HTML step of `validate`: split both revisions, report a malformed
region as one violation and skip the rest, else compare prefix/suffix and
scan the current interior. -/
def htmlErrors (tok : Tokenizer) (env : Env) : List (List Char) :=
  if htmlTarget ∈ env.files then
    match split_chaos_region env.base_html, split_chaos_region env.head_html with
    | some (bb, _br, ba), some (hb, hr, ha) =>
      (if bb ≠ hb ∨ ba ≠ ha then [regionMsg] else []) ++ scanRegion tok hr
    | _, _ => [malformedMsg]
  else []

/-- The CSS step of `validate`. -/
def cssErrors (env : Env) : List (List Char) :=
  if cssTarget ∈ env.files then validate_css_scoping env.css else []

/-- Source `ValidationResult`: `ok ⇔ len(errors) == 0`. -/
structure ValidationResult where
  ok : Bool
  errors : List (List Char)

/-- Source `validate(base_ref)` with the collaborators injected: accumulate the
allow-list, HTML and CSS violations in that order. -/
def validate (tok : Tokenizer) (env : Env) : ValidationResult :=
  ⟨(allowlistErrors env.files ++ htmlErrors tok env ++ cssErrors env).isEmpty,
   allowlistErrors env.files ++ htmlErrors tok env ++ cssErrors env⟩

/-- A trivial concrete tokenizer for witnesses. -/
def tok0 : Tokenizer := fun _ => []

/-- Environment for the C7 witness: both revisions are the same
well-marked document. -/
def env7 : Env := ⟨[htmlTarget], splitWitnessDoc, splitWitnessDoc, []⟩

/-- Environment for the C8 witness: a base document with no markers, plus
a CSS change with one scoping violation. -/
def env8 : Env :=
  ⟨[htmlTarget, cssTarget], "no markers here".data, splitWitnessDoc,
   "h1 \x7b color: red; \x7d".data⟩

/-- Environment for the C9 witness: a change set touching a file outside
the allow list. -/
def env9 : Env := ⟨["README.md".data, htmlTarget], [], [], []⟩

/-! ## Theorems -/
theorem findSub_some {hay pat : List Char} {n : Nat}
    (h : findSub hay pat = some n) : pat <+: hay.drop n := by
  induction hay generalizing n with
  | nil =>
    rw [findSub] at h
    split at h
    · rename_i hp
      cases h
      simpa using Iff.mp List.isPrefixOf_iff_prefix hp
    · exact absurd h (by simp)
  | cons c t ih =>
    rw [findSub] at h
    split at h
    · rename_i hp
      cases h
      simpa using Iff.mp List.isPrefixOf_iff_prefix hp
    · simp only [Option.map_eq_some'] at h
      obtain ⟨m, hm, rfl⟩ := h
      simpa using ih hm

theorem findSub_none {hay pat : List Char}
    (h : findSub hay pat = none) : ∀ i, ¬ pat <+: hay.drop i := by
  induction hay with
  | nil =>
    rw [findSub] at h
    split at h
    · exact absurd h (by simp)
    · intro i hp
      rename_i hnp
      simp only [List.drop_nil] at hp
      exact hnp (Iff.mpr List.isPrefixOf_iff_prefix hp)
  | cons c t ih =>
    rw [findSub] at h
    split at h
    · exact absurd h (by simp)
    · rename_i hnp
      simp only [Option.map_eq_none'] at h
      intro i
      match i with
      | 0 =>
        intro hp
        exact hnp (Iff.mpr List.isPrefixOf_iff_prefix (by simpa using hp))
      | Nat.succ j =>
        simpa using ih h j

theorem findSub_min {hay pat : List Char} {n : Nat}
    (h : findSub hay pat = some n) : ∀ m, m < n → ¬ pat <+: hay.drop m := by
  induction hay generalizing n with
  | nil =>
    rw [findSub] at h
    split at h
    · cases h; omega
    · exact absurd h (by simp)
  | cons c t ih =>
    rw [findSub] at h
    split at h
    · cases h; omega
    · rename_i hnp
      simp only [Option.map_eq_some'] at h
      obtain ⟨m', hm', rfl⟩ := h
      intro m hm
      match m with
      | 0 =>
        intro hp
        exact hnp (Iff.mpr List.isPrefixOf_iff_prefix (by simpa using hp))
      | Nat.succ j =>
        simpa using ih hm' j (by omega)

/-- The end marker cannot begin strictly inside an occurrence of the start
marker: only character 0 of `CHAOS_START` is `<`. -/
theorem marker_no_overlap {html : List Char} {s e : Nat}
    (hs : CHAOS_START <+: html.drop s) (he : CHAOS_END <+: html.drop e)
    (hlt : s < e) : s + CHAOS_START.length ≤ e := by
  by_contra hcon
  push_neg at hcon
  obtain ⟨r, hr⟩ := hs
  obtain ⟨t, ht⟩ := he
  have hk1 : 0 < e - s := Nat.sub_pos_of_lt hlt
  have hk2 : e - s < CHAOS_START.length := by omega
  have hdrop : html.drop e = CHAOS_START.drop (e - s) ++ r := by
    have h1 : html.drop e = (html.drop s).drop (e - s) := by
      rw [List.drop_drop]
      congr 1
      omega
    rw [h1, ← hr, List.drop_append_of_le_length (Nat.le_of_lt hk2)]
  have hhead : (CHAOS_START.drop (e - s) ++ r).head? = some '<' := by
    rw [← hdrop, ← ht]
    rfl
  have hne : CHAOS_START.drop (e - s) ≠ [] := by
    intro hnil
    have := congrArg List.length hnil
    simp at this
    omega
  obtain ⟨c, l, hcl⟩ := List.exists_cons_of_ne_nil hne
  have hc : c = '<' := by
    rw [hcl] at hhead
    simpa using hhead
  have hforbidden : ∀ k, k < CHAOS_START.length → 0 < k →
      (CHAOS_START.drop k).head? ≠ some '<' := by decide
  exact hforbidden (e - s) hk2 hk1 (by rw [hcl, hc]; rfl)

/-- C5: whenever `split_chaos_region` succeeds, the prefix ends with the
`CHAOS_START` marker, the suffix begins with the `CHAOS_END` marker, and
`prefix ++ interior ++ suffix` reconstructs the original document exactly. -/
theorem chaos_split_roundtrip (html p i sfx : List Char)
    (h : split_chaos_region html = some (p, i, sfx)) :
    CHAOS_START <:+ p ∧ CHAOS_END <+: sfx ∧ p ++ i ++ sfx = html := by
  unfold split_chaos_region at h
  cases hS : findSub html CHAOS_START with
  | none => rw [hS] at h; simp at h
  | some s =>
    cases hE : findSub html CHAOS_END with
    | none => rw [hS, hE] at h; simp at h
    | some e =>
      rw [hS, hE] at h
      simp only [] at h
      split at h
      · exact absurd h (by simp)
      · rename_i hle
        have hlt : s < e := by omega
        injection h with h
        injection h with hp h
        injection h with hi hsfx
        have hsp := findSub_some hS
        have hep := findSub_some hE
        have hov : s + CHAOS_START.length ≤ e := marker_no_overlap hsp hep hlt
        obtain ⟨r, hr⟩ := hsp
        refine ⟨?_, ?_, ?_⟩
        · refine ⟨html.take s, ?_⟩
          rw [← hp, List.take_add, ← hr, List.take_left]
        · rw [← hsfx]; exact hep
        · rw [← hp, ← hi, ← hsfx]
          have hdropE : html.drop e =
              (html.drop (s + CHAOS_START.length)).drop (e - (s + CHAOS_START.length)) := by
            rw [List.drop_drop]
            congr 1
            omega
          rw [hdropE, List.append_assoc, List.take_append_drop, List.take_append_drop]

theorem chaos_split_roundtrip_witness :
    split_chaos_region splitWitnessDoc =
      some ("AA<!-- CHAOS_START -->".data, "mid".data, "<!-- CHAOS_END -->ZZ".data) ∧
    CHAOS_START <:+ "AA<!-- CHAOS_START -->".data ∧
    CHAOS_END <+: "<!-- CHAOS_END -->ZZ".data ∧
    "AA<!-- CHAOS_START -->".data ++ "mid".data ++ "<!-- CHAOS_END -->ZZ".data =
      splitWitnessDoc :=
  ⟨by decide,
   chaos_split_roundtrip splitWitnessDoc _ _ _ (by decide)⟩

/-- C6: the split fails (returns `none`, modelling the `ValueError`)
exactly when the start marker is absent, the end marker is absent, or the
first end-marker offset is not strictly greater than the first
start-marker offset; on every other document it returns a three-way split.
(`findSub` returns the first occurrence: see `findSub_some`, `findSub_min`
and `findSub_none`.) -/
theorem chaos_split_failure_iff (html : List Char) :
    (split_chaos_region html = none ↔
      findSub html CHAOS_START = none ∨ findSub html CHAOS_END = none ∨
        ∃ s e, findSub html CHAOS_START = some s ∧
          findSub html CHAOS_END = some e ∧ e ≤ s)
    ∧ (split_chaos_region html ≠ none →
        ∃ p i sfx, split_chaos_region html = some (p, i, sfx)) := by
  constructor
  · unfold split_chaos_region
    split
    · rename_i s e hS hE
      split
      · rename_i hle
        refine iff_of_true rfl ?_
        exact Or.inr (Or.inr ⟨s, e, hS, hE, hle⟩)
      · rename_i hle
        refine iff_of_false (by simp) ?_
        push_neg
        refine ⟨by simp [hS], by simp [hE], ?_⟩
        rintro s' e' hs' he'
        rw [hS] at hs'
        rw [hE] at he'
        injection hs' with hs'
        injection he' with he'
        omega
    · rename_i hno
      refine iff_of_true rfl ?_
      cases hS : findSub html CHAOS_START with
      | none => exact Or.inl rfl
      | some s =>
        cases hE : findSub html CHAOS_END with
        | none => exact Or.inr (Or.inl rfl)
        | some e => exact absurd (hno s e hS hE) not_false
  · intro h
    cases hsp : split_chaos_region html with
    | none => exact absurd hsp h
    | some t =>
      obtain ⟨a, b, c⟩ := t
      exact ⟨a, b, c, rfl⟩

theorem chaos_split_failure_iff_witness :
    ∃ p i sfx, split_chaos_region splitWitnessDoc = some (p, i, sfx) :=
  (chaos_split_failure_iff splitWitnessDoc).2 (by decide)

theorem prefix_head_ne {a b : Char} {as bs l : List Char} (hab : a ≠ b)
    (h1 : a :: as <+: l) (h2 : b :: bs <+: l) : False := by
  obtain ⟨t, ht⟩ := h1
  obtain ⟨u, hu⟩ := h2
  rw [← ht] at hu
  simp only [List.cons_append] at hu
  injection hu with hab' _
  exact hab hab'.symm

theorem eraseKey_keys_sub {key k : List Char}
    {m : List (List Char × List Char)}
    (h : k ∈ (eraseKey key m).map Prod.fst) : k ∈ m.map Prod.fst := by
  induction m with
  | nil => simp [eraseKey] at h
  | cons a rest ih =>
    obtain ⟨ka, va⟩ := a
    rw [eraseKey] at h
    split at h
    · simp only [List.map_cons, List.mem_cons]
      exact Or.inr h
    · simp only [List.map_cons, List.mem_cons] at h ⊢
      rcases h with h | h
      · exact Or.inl h
      · exact Or.inr (ih h)

theorem attrMapBuild_keys_sub :
    ∀ (l : List (List Char × List Char)) (k : List Char),
      k ∈ (attrMapBuild l).map Prod.fst → k ∈ l.map Prod.fst := by
  intro l
  induction l with
  | nil => simp [attrMapBuild]
  | cons a rest ih =>
    obtain ⟨ka, va⟩ := a
    intro k hk
    rw [attrMapBuild] at hk
    cases hG : attrGet (attrMapBuild rest) ka with
    | some v2 =>
      rw [hG] at hk
      simp only [List.map_cons, List.mem_cons] at hk ⊢
      rcases hk with h | h
      · exact Or.inl h
      · exact Or.inr (ih k (eraseKey_keys_sub h))
    | none =>
      rw [hG] at hk
      simp only [List.map_cons, List.mem_cons] at hk ⊢
      rcases hk with h | h
      · exact Or.inl h
      · exact Or.inr (ih k h)

/-- C2 counterexample: for `href="javascript:alert(1)"` the scanner DOES
emit the "must be http(s) or fragment only" violation (the two `if`s in
the source are independent, there is no `elif`), refuting the claim's
"does not emit" part at the claim's own example region. -/
theorem anchor_javascript_emits_scheme_violation_too :
    linkSchemeMsg "javascript:alert(1)".data ∈
      handle_starttag "a".data
        [("href".data, some "javascript:alert(1)".data),
         ("onclick".data, some "x()".data)] := by decide

/-- C2 (amended): an `<a>` start tag whose `href`, trimmed and lowercased,
starts with `javascript:` yields BOTH the javascript:-URL violation and
the "must be http(s) or fragment only" violation; the claim's example
region still produces (at least) three distinct violations. -/
theorem anchor_javascript_href_violations
    (attrs : List (List Char × Option (List Char))) (v : List Char)
    (hhref : attrGet (buildAttrMap attrs) ("href".data) = some v)
    (hjs : "javascript:".data <+: pyLower (pyStrip v)) :
    (jsMsg ∈ handle_starttag "a".data attrs ∧
      linkSchemeMsg v ∈ handle_starttag "a".data attrs) ∧
    ((handle_starttag "a".data
        [("href".data, some "javascript:alert(1)".data),
         ("onclick".data, some "x()".data)]).length = 3 ∧
      (handle_starttag "a".data
        [("href".data, some "javascript:alert(1)".data),
         ("onclick".data, some "x()".data)]).Nodup) := by
  refine ⟨?_, by decide, by decide⟩
  have hvne : v ≠ [] := by
    intro hv
    subst hv
    have hlen := hjs.length_le
    simp [pyStrip, pyLower] at hlen
  have hjsb : "javascript:".data.isPrefixOf (pyLower (pyStrip v)) = true :=
    Iff.mpr List.isPrefixOf_iff_prefix hjs
  have hh1 : "http://".data.isPrefixOf (pyLower (pyStrip v)) = false := by
    simp only [Bool.eq_false_iff, ne_eq, List.isPrefixOf_iff_prefix]
    intro hb
    exact prefix_head_ne (show ('h' : Char) ≠ 'j' by decide) hb hjs
  have hh2 : "https://".data.isPrefixOf (pyLower (pyStrip v)) = false := by
    simp only [Bool.eq_false_iff, ne_eq, List.isPrefixOf_iff_prefix]
    intro hb
    exact prefix_head_ne (show ('h' : Char) ≠ 'j' by decide) hb hjs
  have hh3 : "#".data.isPrefixOf (pyLower (pyStrip v)) = false := by
    simp only [Bool.eq_false_iff, ne_eq, List.isPrefixOf_iff_prefix]
    intro hb
    exact prefix_head_ne (show ('#' : Char) ≠ 'j' by decide) hb hjs
  have haE : aErrors (buildAttrMap attrs) = [jsMsg, linkSchemeMsg v] := by
    unfold aErrors
    rw [hhref]
    simp [hvne, hjsb, hh1, hh2, hh3]
  constructor
  · unfold handle_starttag
    rw [if_pos (show pyLower "a".data = "a".data from rfl)]
    simp [haE]
  · unfold handle_starttag
    rw [if_pos (show pyLower "a".data = "a".data from rfl)]
    simp [haE]

theorem anchor_javascript_href_violations_witness :
    jsMsg ∈ handle_starttag "a".data
        [("href".data, some "javascript:alert(1)".data),
         ("onclick".data, some "x()".data)] ∧
    linkSchemeMsg "javascript:alert(1)".data ∈ handle_starttag "a".data
        [("href".data, some "javascript:alert(1)".data),
         ("onclick".data, some "x()".data)] :=
  (anchor_javascript_href_violations
    [("href".data, some "javascript:alert(1)".data),
     ("onclick".data, some "x()".data)]
    "javascript:alert(1)".data (by decide) (by decide)).1

/-- C3 counterexample: an `<a>` tag with `href` present but equal to the
empty string produces NO violations at all (the source guards the href
checks with `if href:`), refuting the claim's "including an href whose
value is the empty string". -/
theorem anchor_empty_href_unflagged :
    handle_starttag "a".data [("href".data, some [])] = [] ∧
    linkSchemeMsg [] ∉ handle_starttag "a".data [("href".data, some [])] := by
  decide

/-- C3 (amended): an `<a>` start tag whose `href` is present with a
NON-EMPTY value that, trimmed and lowercased, starts with none of
`http://`, `https://`, `#`, gets the "must be http(s) or fragment only"
violation. -/
theorem anchor_bad_scheme_violation
    (attrs : List (List Char × Option (List Char))) (v : List Char)
    (hhref : attrGet (buildAttrMap attrs) ("href".data) = some v)
    (hne : v ≠ [])
    (hh1 : ¬ "http://".data <+: pyLower (pyStrip v))
    (hh2 : ¬ "https://".data <+: pyLower (pyStrip v))
    (hh3 : ¬ "#".data <+: pyLower (pyStrip v)) :
    linkSchemeMsg v ∈ handle_starttag "a".data attrs := by
  have hb1 : "http://".data.isPrefixOf (pyLower (pyStrip v)) = false := by
    rw [Bool.eq_false_iff]
    intro hb
    exact hh1 (Iff.mp List.isPrefixOf_iff_prefix hb)
  have hb2 : "https://".data.isPrefixOf (pyLower (pyStrip v)) = false := by
    rw [Bool.eq_false_iff]
    intro hb
    exact hh2 (Iff.mp List.isPrefixOf_iff_prefix hb)
  have hb3 : "#".data.isPrefixOf (pyLower (pyStrip v)) = false := by
    rw [Bool.eq_false_iff]
    intro hb
    exact hh3 (Iff.mp List.isPrefixOf_iff_prefix hb)
  unfold handle_starttag
  rw [if_pos (show pyLower "a".data = "a".data from rfl)]
  simp only [List.mem_append]
  refine Or.inl (Or.inr ?_)
  unfold aErrors
  rw [hhref]
  simp [hne, hb1, hb2, hb3]

theorem anchor_bad_scheme_violation_witness :
    linkSchemeMsg "ftp://example.com".data ∈
      handle_starttag "a".data [("href".data, some "ftp://example.com".data)] :=
  anchor_bad_scheme_violation [("href".data, some "ftp://example.com".data)]
    "ftp://example.com".data (by decide) (by decide) (by decide) (by decide)
    (by decide)

/-- C4: a start tag that is neither `a` nor `img` (after lowering) and has
no attribute whose lowered name starts with `on` produces no violations;
in particular `script`, `iframe` and `style` start tags pass unflagged. -/
theorem non_anchor_non_img_tag_unflagged (tag : List Char)
    (attrs : List (List Char × Option (List Char)))
    (hta : pyLower tag ≠ "a".data) (hti : pyLower tag ≠ "img".data)
    (hon : ∀ p ∈ attrs, ¬ "on".data <+: pyLower p.1) :
    handle_starttag tag attrs = [] ∧
    handle_starttag "script".data
      [("src".data, some "https://e/x.js".data)] = [] ∧
    handle_starttag "iframe".data [("src".data, some "https://e/".data)] = [] ∧
    handle_starttag "style".data [] = [] := by
  refine ⟨?_, by decide, by decide, by decide⟩
  unfold handle_starttag
  rw [if_neg hta, if_neg hti]
  simp only [List.append_nil]
  unfold onHandlerErrors
  rw [List.map_eq_nil_iff, List.filter_eq_nil_iff]
  intro k hk
  have hk2 : k ∈ (attrs.map (fun p => (pyLower p.1, p.2.getD []))).map Prod.fst :=
    attrMapBuild_keys_sub _ k hk
  simp only [List.map_map, List.mem_map, Function.comp] at hk2
  obtain ⟨p, hp, rfl⟩ := hk2
  simpa using hon p hp

theorem non_anchor_non_img_tag_unflagged_witness :
    handle_starttag "div".data [("class".data, some "card".data)] = [] :=
  (non_anchor_non_img_tag_unflagged "div".data
    [("class".data, some "card".data)] (by decide) (by decide) (by decide)).1

/-- C1 counterexample: for the selector-list `*` the checker emits NO
"bare element selector not allowed" violation — the `.chaos-region`
prefix check fires first and `continue`s past the token loop. -/
theorem star_selector_no_bare_violation :
    bareSelMsg "*".data ∉ validate_css_scoping starRuleCss ∧
    validate_css_scoping starRuleCss ≠ [] := by decide

/-- C1 (amended): for the CSS input `* { margin:0; }` the checker emits
exactly one violation, the "All selectors must start with .chaos-region"
one, for that selector. -/
theorem star_selector_prefix_violation :
    validate_css_scoping starRuleCss = [allSelMsg "*".data] := by decide

/-- C10: comment deletion and string emptying run before selector
extraction, so `.chaos-region .x { content: "h1 { color }"; }` yields
zero violations. -/
theorem string_literal_css_no_violations :
    validate_css_scoping stringLiteralCss = [] := by decide

theorem ne_of_head {x y : List Char} (h : x.head? ≠ y.head?) : x ≠ y :=
  fun he => h (congrArg List.head? he)

theorem inlineMsg_head (t k : List Char) : (inlineMsg t k).head? = some 'I' := rfl

theorem linkSchemeMsg_head (h : List Char) :
    (linkSchemeMsg h).head? = some 'L' := rfl

theorem allSelMsg_head (s : List Char) : (allSelMsg s).head? = some 'A' := rfl

theorem bareSelMsg_head (s : List Char) : (bareSelMsg s).head? = some 'B' := rfl

theorem illegalMsg_head (files : List (List Char)) :
    (illegalMsg files).head? = some 'I' := rfl

theorem aErrors_shape {m : List (List Char × List Char)} {v : List Char}
    (hv : v ∈ aErrors m) :
    v = jsMsg ∨ (∃ h, v = linkSchemeMsg h) ∨ v = targetMsg ∨ v = relMsg := by
  simp only [aErrors] at hv
  rcases List.mem_append.mp hv with h1 | h2
  · split at h1
    · simp at h1
    · rcases List.mem_append.mp h1 with ha | hb
      · split at ha
        · simp at ha
          exact Or.inl ha
        · simp at ha
      · split at hb
        · simp at hb
          exact Or.inr (Or.inl ⟨_, hb⟩)
        · simp at hb
  · split at h2
    · rcases List.mem_append.mp h2 with ha | hb
      · split at ha
        · simp at ha
        · simp at ha
          exact Or.inr (Or.inr (Or.inl ha))
      · split at hb
        · simp at hb
        · simp at hb
          exact Or.inr (Or.inr (Or.inr hb))
    · simp at h2

theorem imgErrors_shape {m : List (List Char × List Char)} {v : List Char}
    (hv : v ∈ imgErrors m) : v = imgSrcMsg ∨ v = imgAltMsg := by
  simp only [imgErrors] at hv
  rcases List.mem_append.mp hv with h1 | h2
  · split at h1
    · simp at h1
    · split at h1
      · simp at h1
      · simp at h1
        exact Or.inl h1
  · split at h2
    · simp at h2
      exact Or.inr h2
    · simp at h2

theorem handle_starttag_head {tag : List Char}
    {attrs : List (List Char × Option (List Char))} {v : List Char}
    (hv : v ∈ handle_starttag tag attrs) :
    v.head? = some 'I' ∨ v.head? = some 'L' ∨ v.head? = some 'E' := by
  unfold handle_starttag at hv
  rcases List.mem_append.mp hv with h12 | h3
  · rcases List.mem_append.mp h12 with h1 | h2
    · unfold onHandlerErrors at h1
      simp only [List.mem_map] at h1
      obtain ⟨k, _, rfl⟩ := h1
      exact Or.inl rfl
    · split at h2
      · rcases aErrors_shape h2 with rfl | ⟨h, rfl⟩ | rfl | rfl
        · exact Or.inr (Or.inl rfl)
        · exact Or.inr (Or.inl rfl)
        · exact Or.inr (Or.inr rfl)
        · exact Or.inr (Or.inr rfl)
      · simp at h2
  · split at h3
    · rcases imgErrors_shape h3 with rfl | rfl
      · exact Or.inl rfl
      · exact Or.inl rfl
    · simp at h3

theorem scanRegion_head {tok : Tokenizer} {region v : List Char}
    (hv : v ∈ scanRegion tok region) :
    v.head? = some 'I' ∨ v.head? = some 'L' ∨ v.head? = some 'E' := by
  unfold scanRegion at hv
  simp only [List.mem_flatten, List.mem_map] at hv
  obtain ⟨l, ⟨ev, _, rfl⟩, hvl⟩ := hv
  exact handle_starttag_head hvl

theorem selectorErrors_shape {sel v : List Char}
    (hv : v ∈ selectorErrors sel) :
    (∃ s, v = allSelMsg s) ∨ ∃ s, v = bareSelMsg s := by
  unfold selectorErrors at hv
  split at hv
  · split at hv
    · simp at hv
      exact Or.inr ⟨_, hv⟩
    · simp at hv
  · simp at hv
    exact Or.inl ⟨_, hv⟩

theorem validate_css_scoping_shape {css v : List Char}
    (hv : v ∈ validate_css_scoping css) :
    (∃ s, v = allSelMsg s) ∨ ∃ s, v = bareSelMsg s := by
  unfold validate_css_scoping at hv
  simp only [List.mem_flatMap] at hv
  obtain ⟨block, _, hvb⟩ := hv
  simp only [blockErrors] at hvb
  split at hvb
  · simp at hvb
  · split at hvb
    · simp at hvb
    · simp only [List.mem_flatMap] at hvb
      obtain ⟨sel, _, hvs⟩ := hvb
      exact selectorErrors_shape hvs

theorem allowlistErrors_shape {files : List (List Char)} {v : List Char}
    (hv : v ∈ allowlistErrors files) : v = allowMsg ∨ v = illegalMsg files := by
  unfold allowlistErrors at hv
  split at hv
  · simp at hv
  · simpa using hv

theorem regionMsg_not_allowlist {files : List (List Char)} :
    regionMsg ∉ allowlistErrors files := by
  intro hv
  rcases allowlistErrors_shape hv with h | h
  · exact ne_of_head (by decide) h
  · exact ne_of_head (by rw [illegalMsg_head]; decide) h

theorem regionMsg_not_scan {tok : Tokenizer} {region : List Char} :
    regionMsg ∉ scanRegion tok region := by
  intro hv
  have hh : regionMsg.head? = some 'i' := rfl
  rcases scanRegion_head hv with h | h | h <;> rw [hh] at h <;> exact absurd h (by decide)

theorem regionMsg_not_css {css : List Char} :
    regionMsg ∉ validate_css_scoping css := by
  intro hv
  rcases validate_css_scoping_shape hv with ⟨s, h⟩ | ⟨s, h⟩
  · exact ne_of_head (by rw [allSelMsg_head]; decide) h
  · exact ne_of_head (by rw [bareSelMsg_head]; decide) h

/-- C7: when the HTML target changed and both revisions split, the
outside-marked-region violation appears iff base and current prefixes or
suffixes differ, and the safety scan of the current interior always runs,
all its violations landing in the result. -/
theorem validate_html_region_and_scan (tok : Tokenizer) (env : Env)
    (bb br ba hb hr ha : List Char)
    (hmem : htmlTarget ∈ env.files)
    (hbase : split_chaos_region env.base_html = some (bb, br, ba))
    (hcur : split_chaos_region env.head_html = some (hb, hr, ha)) :
    (validate tok env).errors =
      allowlistErrors env.files ++
        ((if bb ≠ hb ∨ ba ≠ ha then [regionMsg] else []) ++ scanRegion tok hr) ++
        cssErrors env ∧
    (regionMsg ∈ (validate tok env).errors ↔ (bb ≠ hb ∨ ba ≠ ha)) ∧
    ∀ v ∈ scanRegion tok hr, v ∈ (validate tok env).errors := by
  have hhe : htmlErrors tok env =
      (if bb ≠ hb ∨ ba ≠ ha then [regionMsg] else []) ++ scanRegion tok hr := by
    unfold htmlErrors
    rw [if_pos hmem, hbase, hcur]
  have herrs : (validate tok env).errors =
      allowlistErrors env.files ++
        ((if bb ≠ hb ∨ ba ≠ ha then [regionMsg] else []) ++ scanRegion tok hr) ++
        cssErrors env := by
    show allowlistErrors env.files ++ htmlErrors tok env ++ cssErrors env = _
    rw [hhe]
  refine ⟨herrs, ?_, ?_⟩
  · constructor
    · intro hm
      by_contra hd
      rw [herrs, if_neg hd] at hm
      simp only [List.nil_append, List.mem_append] at hm
      rcases hm with (hm | hm) | hm
      · exact regionMsg_not_allowlist hm
      · exact regionMsg_not_scan hm
      · unfold cssErrors at hm
        split at hm
        · exact regionMsg_not_css hm
        · simp at hm
    · intro hd
      rw [herrs, if_pos hd]
      simp
  · intro v hv
    rw [herrs]
    simp only [List.mem_append]
    exact Or.inl (Or.inr (Or.inr hv))

theorem validate_html_region_and_scan_witness :
    regionMsg ∈ (validate tok0 env7).errors ↔
      ("AA<!-- CHAOS_START -->".data ≠ "AA<!-- CHAOS_START -->".data ∨
       "<!-- CHAOS_END -->ZZ".data ≠ "<!-- CHAOS_END -->ZZ".data) :=
  (validate_html_region_and_scan tok0 env7
    "AA<!-- CHAOS_START -->".data "mid".data "<!-- CHAOS_END -->ZZ".data
    "AA<!-- CHAOS_START -->".data "mid".data "<!-- CHAOS_END -->ZZ".data
    (by decide) (by decide) (by decide)).2.1

/-- C8: when the HTML target changed and either revision fails to split,
the malformed-region message is appended as a single violation, the
remaining HTML checks are skipped, and the CSS check (when its target also
changed) still contributes its violations to the same result. -/
theorem validate_malformed_region (tok : Tokenizer) (env : Env)
    (hmem : htmlTarget ∈ env.files)
    (hfail : split_chaos_region env.base_html = none ∨
      split_chaos_region env.head_html = none) :
    (validate tok env).errors =
      allowlistErrors env.files ++ [malformedMsg] ++ cssErrors env ∧
    (cssTarget ∈ env.files →
      ∀ v ∈ validate_css_scoping env.css, v ∈ (validate tok env).errors) := by
  have hhe : htmlErrors tok env = [malformedMsg] := by
    unfold htmlErrors
    rw [if_pos hmem]
    rcases hfail with hf | hf
    · rw [hf]
    · rw [hf]
      cases hb2 : split_chaos_region env.base_html with
      | none => rfl
      | some t =>
        obtain ⟨a, b, c⟩ := t
        rfl
  have herrs : (validate tok env).errors =
      allowlistErrors env.files ++ [malformedMsg] ++ cssErrors env := by
    show allowlistErrors env.files ++ htmlErrors tok env ++ cssErrors env = _
    rw [hhe]
  refine ⟨herrs, ?_⟩
  intro hcss v hv
  rw [herrs]
  simp only [List.mem_append]
  refine Or.inr ?_
  unfold cssErrors
  rw [if_pos hcss]
  exact hv

theorem validate_malformed_region_witness :
    (validate tok0 env8).errors =
      allowlistErrors env8.files ++ [malformedMsg] ++ cssErrors env8 :=
  (validate_malformed_region tok0 env8 (by decide) (Or.inl (by decide))).1

/-- C9: any change set with a path outside the allow list makes the run
fail with the two distinct allow-list messages first — the second
enumerating exactly the paths outside the allow list, in change-set
order — ahead of all HTML and CSS violations; and in every run, success
holds iff the accumulated violation list is empty. -/
theorem validate_allowlist_and_success (tok : Tokenizer) (env : Env) :
    ((∃ f ∈ env.files, f ∉ ALLOWED_CHANGED_FILES) →
      (validate tok env).ok = false ∧
      (validate tok env).errors =
        allowMsg :: illegalMsg env.files ::
          (htmlErrors tok env ++ cssErrors env) ∧
      allowMsg ≠ illegalMsg env.files) ∧
    ((validate tok env).ok = true ↔ (validate tok env).errors = []) := by
  constructor
  · intro hbad
    obtain ⟨f, hf, hnf⟩ := hbad
    have hfilter :
        env.files.filter (fun f => decide (f ∉ ALLOWED_CHANGED_FILES)) ≠ [] := by
      intro h0
      have hfm : f ∈ env.files.filter
          (fun f => decide (f ∉ ALLOWED_CHANGED_FILES)) := by
        rw [List.mem_filter]
        exact ⟨hf, by simpa using hnf⟩
      rw [h0] at hfm
      simp at hfm
    have hA : allowlistErrors env.files = [allowMsg, illegalMsg env.files] := by
      unfold allowlistErrors
      rw [if_neg hfilter]
    have herrs : (validate tok env).errors =
        allowMsg :: illegalMsg env.files ::
          (htmlErrors tok env ++ cssErrors env) := by
      show allowlistErrors env.files ++ htmlErrors tok env ++ cssErrors env = _
      rw [hA]
      simp
    refine ⟨?_, herrs, ?_⟩
    · show (allowlistErrors env.files ++ htmlErrors tok env ++
        cssErrors env).isEmpty = false
      rw [hA]
      rfl
    · exact ne_of_head (by rw [illegalMsg_head]; decide)
  · have hsh : (validate tok env).errors =
        allowlistErrors env.files ++ htmlErrors tok env ++ cssErrors env := rfl
    rw [hsh]
    show (allowlistErrors env.files ++ htmlErrors tok env ++
      cssErrors env).isEmpty = true ↔ _
    simp [List.isEmpty_iff]

theorem validate_allowlist_and_success_witness :
    (validate tok0 env9).ok = false ∧
    (validate tok0 env9).errors =
      allowMsg :: illegalMsg env9.files ::
        (htmlErrors tok0 env9 ++ cssErrors env9) ∧
    allowMsg ≠ illegalMsg env9.files :=
  (validate_allowlist_and_success tok0 env9).1 (by decide)

end ChaosPR

